import Mathlib

/-!
Verification of the job-matrix test-partitioning and lookup logic of the
fmfuzz-evaluation repository.

Two components are embedded:

* the Test-Corpus Partitioner (`scripts/rq2/pick_random_tests.py`, `main`,
  lines 135-171): seeded shuffle of the test corpus followed by slicing into
  consecutive windows of `tests_per_job = (len + 3) // 4` tests, each window
  becoming a job `{job_id, tests}`;
* the Matrix Entry Resolver (`scripts/extract_matrix_tests.py`,
  `find_matching_entry`, lines 16-62): linear scan of `include` with
  prefix-tolerant commit matching and dual string/numeric job-id matching.

The stdlib function `random.shuffle` (outside this repository) is modelled as the
CPython Fisher-Yates loop (`for i in reversed(range(1, len(x))):
j = randbelow(i+1); swap x[i], x[j]`) driven by a deterministic pseudo-random
generator keyed by the seed; the spec fixes only that the permutation is
deterministic in the seed, not the PRNG algorithm, so an LCG stands in for the
Mersenne Twister.
-/

/-- A test identifier: an opaque string (spec §3, TestId). -/
abbrev TestId := String

/-- One shard emitted by the partitioner: the dict with a `job_id` key and a
`tests` key built at line 158. -/
structure Job where
  job_id : Nat
  tests : List TestId
deriving Repr, DecidableEq

/-- Deterministic PRNG step (stands in for the stdlib Mersenne Twister, which
is outside the repository): a linear congruential generator. -/
def lcgNext (s : Nat) : Nat := (75 * s + 74) % 65537

/-- Models the `randbelow(n)` draw used by `random.shuffle`: advance the PRNG
state and return a value `< n` (for `n > 0`) together with the new state. -/
def randbelow (s n : Nat) : Nat × Nat :=
  let s' := lcgNext s
  (s' % n, s')

/-- Models `random.seed(seed)` (line 142): replace the
global PRNG state with a state that depends only on `seed`. -/
def seedState (seed : Nat) : Nat := seed

/-- The Python list swap `x[i], x[j] = x[j], x[i]`; out-of-range indices leave the
list unchanged (never reached by the shuffle loop). -/
def listSwap (l : List α) (i j : Nat) : List α :=
  match l.get? i, l.get? j with
  | some a, some b => (l.set i b).set j a
  | _, _ => l

/-- The CPython `random.shuffle` loop: `for i in reversed(range(1, len(x)))`,
`j = randbelow(i + 1)`, swap positions `i` and `j`.  The first argument is the
current loop index (the loop stops once it reaches `0`). -/
def shuffleAux : Nat → List α → Nat → List α × Nat
  | 0, l, s => (l, s)
  | i + 1, l, s =>
    let js := randbelow s (i + 2)
    shuffleAux i (listSwap l (i + 1) js.1) js.2

/-- Models the call `random.shuffle(shuffled_tests)` (line 146) starting
from PRNG state `s`: run the Fisher-Yates loop from index `len - 1` down. -/
def pyShuffle (s : Nat) (l : List α) : List α := (shuffleAux (l.length - 1) l s).1

/-- The computation `tests_per_job = (len(shuffled_tests) + 3) // 4` (line 152): ceiling
division of the corpus size by the fixed job count 4. -/
def tests_per_job (n : Nat) : Nat := (n + 3) / 4

/-- Fuel-indexed version of the slicing loop
`for i in range(0, len(shuffled_tests), tests_per_job)` (lines 155-161):
each iteration takes the window `shuffled_tests[i : i + tests_per_job]` as a
job whose `job_id` is the 0-based window index.  Fuel `≥ l.length` suffices
since every iteration consumes at least one element; `size = 0` never occurs
in the program (the corpus is non-empty there, so `tests_per_job ≥ 1`). -/
def sliceJobsFuel : Nat → List TestId → Nat → Nat → List Job
  | 0, _, _, _ => []
  | _ + 1, [], _, _ => []
  | _ + 1, _ :: _, 0, _ => []
  | fuel + 1, x :: t, s + 1, idx =>
    ⟨idx, (x :: t).take (s + 1)⟩ :: sliceJobsFuel fuel ((x :: t).drop (s + 1)) (s + 1) (idx + 1)

/-- The slicing loop of `pick_random_tests.py` lines 153-161. -/
def sliceJobs (l : List TestId) (size idx : Nat) : List Job :=
  sliceJobsFuel l.length l size idx

/-- The partitioning pipeline of `main` (`pick_random_tests.py` lines
135-161), starting from an arbitrary pre-existing global PRNG state `g`:
exit with an error when the corpus is empty (lines 135-137, called EmptyCorpus
in the spec, modelled as `none`), otherwise re-seed the PRNG from `seed`
(discarding `g`), shuffle a copy of the corpus, and slice it into jobs. -/
def partitionMainFrom (g seed : Nat) (all_tests : List TestId) : Option (List Job) :=
  if all_tests.isEmpty then none
  else
    let _ := g
    let shuffled := pyShuffle (seedState seed) all_tests
    some (sliceJobs shuffled (tests_per_job shuffled.length) 0)

/-- Modelled from the spec: `partition(tests, target_shard_count, seed)`
(spec §4.1).  The script hard-codes `target_shard_count = 4` (line 152); the
contract in the spec exposes it as the parameter `J`, with
`shard_size = ceil(len(tests) / J)`.  `partitionWith 4` coincides
definitionally with the pipeline of the script (see `partitionMainFrom_eq_four`). -/
def partitionWith (J seed : Nat) (tests : List TestId) : Option (List Job) :=
  if tests.isEmpty then none
  else
    let shuffled := pyShuffle (seedState seed) tests
    some (sliceJobs shuffled ((shuffled.length + (J - 1)) / J) 0)

/-- The pipeline of the script is the partition contract of the spec at `J = 4`. -/
theorem partitionMainFrom_eq_four (g s : Nat) (T : List TestId) :
    partitionMainFrom g s T = partitionWith 4 s T := rfl

/-! ## Resolver data model (`extract_matrix_tests.py`) -/

/-- A JSON value stored under a `job_id` key: an integer or a string
(`int|string` in spec §3, MatrixEntry). -/
inductive JobIdVal where
  | vint : Int → JobIdVal
  | vstr : String → JobIdVal
deriving Repr, DecidableEq

/-- The `fuzzer_job` object of a matrix entry.  `none` fields model missing
JSON keys (Python `dict.get` returns `None` / the supplied default). -/
structure FuzzerJob where
  job_id : Option JobIdVal
  tests : Option (List TestId)
deriving Repr, DecidableEq

/-- One element of the `include` list of the matrix as observed by the resolver:
either not a dict (skipped at line 35), or a dict with optional `commit` and
`fuzzer_job` keys — plus the top-level `job_id` and `tests` keys that the
schema of the partitioner uses and the resolver never reads. -/
inductive MEntry where
  | nonDict : MEntry
  | dict (commit : Option String) (fuzzer_job : Option FuzzerJob)
      (jobIdKey : Option JobIdVal) (testsKey : Option (List TestId)) : MEntry
deriving Repr, DecidableEq

/-- Value of a run of decimal digits, `none` when empty or a non-digit occurs. -/
def digitsVal : List Char → Option Nat
  | [] => none
  | ds => go ds 0
where
  go : List Char → Nat → Option Nat
    | [], acc => some acc
    | c :: cs, acc =>
      if c.isDigit then go cs (acc * 10 + (c.toNat - '0'.toNat)) else none

/-- Models Python `int(job_id)` (`extract_matrix_tests.py` lines 28-31): an
optional sign followed by decimal digits, `none` (the `ValueError` branch)
otherwise.  CPython also strips whitespace and underscores; those inputs
never occur here and are not modelled. -/
def pyInt? (s : String) : Option Int :=
  match s.data with
  | '-' :: ds => (digitsVal ds).map (fun n => -(n : Int))
  | '+' :: ds => (digitsVal ds).map (fun n => (n : Int))
  | ds => (digitsVal ds).map (fun n => (n : Int))

/-- The Python test `s.startswith(pre)`: character-for-character comparison. -/
def pyStartswith (s pre : String) : Bool := pre.data.isPrefixOf s.data

/-- The commit match of `find_matching_entry` (lines 40-44):
`entry_commit == commit or entry_commit.startswith(commit) or
commit.startswith(entry_commit)`. -/
def commitMatches (entry_commit commit : String) : Bool :=
  entry_commit == commit || pyStartswith entry_commit commit || pyStartswith commit entry_commit

/-- Models `str(entry_job_id)` where `entry_job_id` comes from
reading the stored job id of the entry: Python `None` prints as `"None"`,
integers in decimal, strings as themselves. -/
def strOfJobId : Option JobIdVal → String
  | none => "None"
  | some (.vint i) => toString i
  | some (.vstr s) => s

/-- Models `entry_job_id == job_id_int`: integer equality when the stored id
is an integer, `False` for strings and `None` (Python cross-type equality). -/
def jobIdEqInt : Option JobIdVal → Int → Bool
  | some (.vint i), k => i == k
  | _, _ => false

/-- The job-id match of `find_matching_entry` (lines 54-57):
`str(entry_job_id) == str(job_id) or (job_id_int is not None and
entry_job_id == job_id_int)` (the query `job_id` is already a string). -/
def jobIdMatches (entry_job_id : Option JobIdVal) (job_id : String) (job_id_int : Option Int) : Bool :=
  strOfJobId entry_job_id == job_id ||
    (match job_id_int with
     | some k => jobIdEqInt entry_job_id k
     | none => false)

/-- Models the lookup of the `fuzzer_job` key with default empty dict (line 50):
the stored object, or an empty
record (both fields missing) when absent or when the entry is not a dict. -/
def entryFuzzerJob : MEntry → FuzzerJob
  | .nonDict => ⟨none, none⟩
  | .dict _ fj _ _ => fj.getD ⟨none, none⟩

/-- Models the lookup of the `commit` key with default empty string (line 39). -/
def entryCommitStr : MEntry → String
  | .nonDict => ""
  | .dict c _ _ _ => c.getD ""

/-- An entry satisfies both the commit and the job-id criteria (non-dict
entries never match: they are skipped before either test runs). -/
def entryMatches (commit job_id : String) (job_id_int : Option Int) : MEntry → Bool
  | .nonDict => false
  | e => commitMatches (entryCommitStr e) commit &&
      jobIdMatches (entryFuzzerJob e).job_id job_id job_id_int

/-- The scan loop of `find_matching_entry` (lines 33-62) with the
pre-computed `job_id_int`: skip non-dicts, skip commit mismatches, skip
job-id mismatches, and return `fuzzer_job.get('tests', [])` of the first
entry passing both tests; `none` (the `return None` of the function, called
NotFound in the spec) when the scan is exhausted. -/
def findGo (commit job_id : String) (job_id_int : Option Int) : List MEntry → Option (List TestId)
  | [] => none
  | .nonDict :: rest => findGo commit job_id job_id_int rest
  | .dict c fj _ _ :: rest =>
    if commitMatches ((Option.getD c "")) commit then
      if jobIdMatches (Option.getD fj ⟨none, none⟩).job_id job_id job_id_int then
        some ((Option.getD fj ⟨none, none⟩).tests.getD [])
      else findGo commit job_id job_id_int (rest)
    else findGo commit job_id job_id_int rest

/-- The matrix file as the resolver sees it: an optional `include` key. -/
structure MatrixData where
  includeEntries : Option (List MEntry)

/-- Models `find_matching_entry(matrix_data, commit, job_id)` (lines 16-62): raise
a `ValueError` when `include` is missing (modelled as `.error`), otherwise
compute the integer form of the query job id once (`None` on `ValueError`)
and scan. -/
def find_matching_entry (m : MatrixData) (commit job_id : String) :
    Except String (Option (List TestId)) :=
  match m.includeEntries with
  | none => .error "Matrix file missing include field"
  | some entries => .ok (findGo commit job_id (pyInt? job_id) entries)

/-- Re-parsing a serialized partitioner job (lines 158-161 of
`pick_random_tests.py`) as a resolver matrix entry: a dict with
top-level `job_id` and `tests` keys and no `commit` or `fuzzer_job` key. -/
def jobToMatrixEntry (j : Job) : MEntry :=
  .dict none none (some (.vint j.job_id)) (some j.tests)

theorem get_cons_set_perm : ∀ (t : List α) (k : Nat) (h : k < t.length) (a : α),
    (t.get ⟨k, h⟩ :: t.set k a).Perm (a :: t)
  | b :: t', 0, _, a => List.Perm.swap a b t'
  | b :: t', k + 1, h, a => by
    have hk : k < t'.length := by simpa using h
    have ih := get_cons_set_perm t' k hk a
    have e1 : (b :: t').get ⟨k + 1, h⟩ = t'.get ⟨k, hk⟩ := rfl
    have e2 : (b :: t').set (k + 1) a = b :: t'.set k a := rfl
    rw [e1, e2]
    exact ((List.Perm.swap b (t'.get ⟨k, hk⟩) (t'.set k a)).trans
      (ih.cons b)).trans (List.Perm.swap a b t')

theorem set_set_get_perm : ∀ (l : List α) (i j : Nat) (hi : i < l.length) (hj : j < l.length),
    ((l.set i (l.get ⟨j, hj⟩)).set j (l.get ⟨i, hi⟩)).Perm l
  | x :: t, 0, 0, _, _ => by
    show (x :: t).Perm (x :: t)
    exact List.Perm.refl _
  | x :: t, 0, j + 1, hi, hj => by
    have hj' : j < t.length := by simpa using hj
    show (t.get ⟨j, hj'⟩ :: t.set j x).Perm (x :: t)
    exact get_cons_set_perm t j hj' x
  | x :: t, i + 1, 0, hi, hj => by
    have hi' : i < t.length := by simpa using hi
    show (t.get ⟨i, hi'⟩ :: t.set i x).Perm (x :: t)
    exact get_cons_set_perm t i hi' x
  | x :: t, i + 1, j + 1, hi, hj => by
    have hi' : i < t.length := by simpa using hi
    have hj' : j < t.length := by simpa using hj
    show (x :: (t.set i (t.get ⟨j, hj'⟩)).set j (t.get ⟨i, hi'⟩)).Perm (x :: t)
    exact (set_set_get_perm t i j hi' hj').cons x

theorem listSwap_perm (l : List α) (i j : Nat) : (listSwap l i j).Perm l := by
  rw [listSwap]
  split
  · next a b hi hj =>
      obtain ⟨hi', rfl⟩ := List.get?_eq_some.mp hi
      obtain ⟨hj', rfl⟩ := List.get?_eq_some.mp hj
      exact set_set_get_perm l i j hi' hj'
  · exact List.Perm.refl l

theorem shuffleAux_perm (i : Nat) : ∀ (l : List α) (s : Nat), (shuffleAux i l s).1.Perm l := by
  induction i with
  | zero => intro l s; exact List.Perm.refl l
  | succ i ih =>
    intro l s
    simp only [shuffleAux]
    exact (ih _ _).trans (listSwap_perm l (i + 1) _)

theorem pyShuffle_perm (s : Nat) (l : List α) : (pyShuffle s l).Perm l :=
  shuffleAux_perm (l.length - 1) l s

theorem pyShuffle_length (s : Nat) (l : List α) : (pyShuffle s l).length = l.length :=
  (pyShuffle_perm s l).length_eq


theorem sliceJobsFuel_zero (l : List TestId) (s idx : Nat) : sliceJobsFuel 0 l s idx = [] := rfl

theorem sliceJobsFuel_nil (fuel s idx : Nat) : sliceJobsFuel fuel [] s idx = [] := by
  cases fuel <;> rfl

theorem sliceJobsFuel_ne_nil (fuel : Nat) (l : List TestId) (s idx : Nat)
    (hf : l.length ≤ fuel) (hl : l ≠ []) : sliceJobsFuel fuel l (s + 1) idx ≠ [] := by
  cases fuel with
  | zero =>
    cases l with
    | nil => exact absurd rfl hl
    | cons x t => simp at hf
  | succ fuel =>
    cases l with
    | nil => exact absurd rfl hl
    | cons x t => simp [sliceJobsFuel]

theorem sliceJobsFuel_flatten (fuel : Nat) : ∀ (l : List TestId) (s idx : Nat),
    l.length ≤ fuel → ((sliceJobsFuel fuel l (s + 1) idx).map Job.tests).flatten = l := by
  induction fuel with
  | zero =>
    intro l s idx h
    have hl : l = [] := List.eq_nil_of_length_eq_zero (Nat.le_zero.mp h)
    subst hl; rfl
  | succ fuel ih =>
    intro l s idx h
    cases l with
    | nil => rfl
    | cons x t =>
      have hlen : ((x :: t).drop (s + 1)).length ≤ fuel := by
        simp only [List.length_drop, List.length_cons]
        simp only [List.length_cons] at h
        omega
      simp only [sliceJobsFuel, List.map_cons, List.flatten_cons]
      rw [ih _ s (idx + 1) hlen]
      exact List.take_append_drop (s + 1) (x :: t)

theorem sliceJobsFuel_job_id (fuel : Nat) : ∀ (l : List TestId) (s idx k : Nat)
    (h : k < (sliceJobsFuel fuel l (s + 1) idx).length),
    ((sliceJobsFuel fuel l (s + 1) idx).get ⟨k, h⟩).job_id = idx + k := by
  induction fuel with
  | zero =>
    intro l s idx k h
    rw [sliceJobsFuel_zero] at h
    simp at h
  | succ fuel ih =>
    intro l s idx k h
    cases l with
    | nil => simp [sliceJobsFuel_nil] at h
    | cons x t =>
      cases k with
      | zero => rfl
      | succ k =>
        have h' : k < (sliceJobsFuel fuel ((x :: t).drop (s + 1)) (s + 1) (idx + 1)).length := by
          simpa [sliceJobsFuel] using h
        have e : idx + (k + 1) = (idx + 1) + k := by omega
        rw [e]
        exact ih ((x :: t).drop (s + 1)) s (idx + 1) k h'

theorem sliceJobsFuel_sizes (fuel : Nat) : ∀ (l : List TestId) (s idx k : Nat),
    l.length ≤ fuel → ∀ (h : k < (sliceJobsFuel fuel l (s + 1) idx).length),
    1 ≤ ((sliceJobsFuel fuel l (s + 1) idx).get ⟨k, h⟩).tests.length ∧
    ((sliceJobsFuel fuel l (s + 1) idx).get ⟨k, h⟩).tests.length ≤ s + 1 ∧
    (k + 1 < (sliceJobsFuel fuel l (s + 1) idx).length →
      ((sliceJobsFuel fuel l (s + 1) idx).get ⟨k, h⟩).tests.length = s + 1) := by
  induction fuel with
  | zero =>
    intro l s idx k hf h
    rw [sliceJobsFuel_zero] at h
    simp at h
  | succ fuel ih =>
    intro l s idx k hf h
    cases l with
    | nil => simp [sliceJobsFuel_nil] at h
    | cons x t =>
      cases k with
      | zero =>
        refine ⟨?_, ?_, ?_⟩
        · show 1 ≤ ((x :: t).take (s + 1)).length
          simp only [List.length_take, List.length_cons]
          omega
        · show ((x :: t).take (s + 1)).length ≤ s + 1
          simp only [List.length_take]
          omega
        · intro hlt
          show ((x :: t).take (s + 1)).length = s + 1
          have hrest : sliceJobsFuel fuel ((x :: t).drop (s + 1)) (s + 1) (idx + 1) ≠ [] := by
            have hl : 0 + 1 < (sliceJobsFuel (fuel + 1) (x :: t) (s + 1) idx).length := hlt
            simp only [sliceJobsFuel, List.length_cons] at hl
            intro hnil
            rw [hnil] at hl
            simp at hl
          have hdrop : (x :: t).drop (s + 1) ≠ [] := by
            intro hnil
            rw [hnil, sliceJobsFuel_nil] at hrest
            exact hrest rfl
          have hgt : s + 1 < (x :: t).length := by
            by_contra hle
            exact hdrop (List.drop_eq_nil_of_le (by omega))
          simp only [List.length_take]
          omega
      | succ k =>
        have hlen : ((x :: t).drop (s + 1)).length ≤ fuel := by
          simp only [List.length_drop, List.length_cons]
          simp only [List.length_cons] at hf
          omega
        have h' : k < (sliceJobsFuel fuel ((x :: t).drop (s + 1)) (s + 1) (idx + 1)).length := by
          simpa [sliceJobsFuel] using h
        have hall := ih ((x :: t).drop (s + 1)) s (idx + 1) k hlen h'
        refine ⟨hall.1, hall.2.1, ?_⟩
        intro hlt
        refine hall.2.2 ?_
        simpa [sliceJobsFuel] using hlt

theorem nil_isPrefixOf (l : List Char) : ([] : List Char).isPrefixOf l = true := by
  cases l <;> rfl

theorem empty_data_isPrefixOf (c : String) : ("" : String).data.isPrefixOf c.data = true := by
  have h : ("" : String).data = [] := by simp
  rw [h]
  exact nil_isPrefixOf c.data

theorem commitMatches_empty_left (c : String) : commitMatches "" c = true := by
  unfold commitMatches pyStartswith
  rw [empty_data_isPrefixOf c]
  simp

theorem commitMatches_empty_right (ec : String) : commitMatches ec "" = true := by
  unfold commitMatches pyStartswith
  rw [empty_data_isPrefixOf ec]
  simp

/-- C1: For every non-empty list of test identifiers and every seed, running
the partitioner twice on the same input list with the same seed produces
identical output partitions — the same shards, holding the same tests in the
same order, with the same job ids — regardless of the pre-existing global
PRNG states `g` and `g'` of the two runs (the script re-seeds from `seed`
before shuffling). -/
theorem partition_deterministic (g g' seed : Nat) (T : List TestId) (hT : T ≠ []) :
    partitionMainFrom g seed T = partitionMainFrom g' seed T ∧
    ∃ jobs : List Job, partitionMainFrom g seed T = some jobs ∧
      partitionMainFrom g' seed T = some jobs := by
  refine ⟨rfl, ?_⟩
  cases T with
  | nil => exact absurd rfl hT
  | cons x t => exact ⟨_, rfl, rfl⟩

theorem partition_deterministic_witness :
    partitionMainFrom 0 42 ["a", "b", "c"] = partitionMainFrom 7 42 ["a", "b", "c"] ∧
    ∃ jobs : List Job, partitionMainFrom 0 42 ["a", "b", "c"] = some jobs ∧
      partitionMainFrom 7 42 ["a", "b", "c"] = some jobs :=
  partition_deterministic 0 7 42 ["a", "b", "c"] (by decide)

/-- C2: For every non-empty input test list, the multiset union of the
`tests` lists of all jobs emitted by the partitioner equals the multiset of
the input list: no test is lost, none is duplicated, and none is invented. -/
theorem partition_preserves_multiset (g seed : Nat) (T : List TestId) (hT : T ≠ []) :
    ((((partitionMainFrom g seed T).getD []).map Job.tests).flatten).Perm T ∧
    (↑((((partitionMainFrom g seed T).getD []).map Job.tests).flatten) : Multiset TestId) =
      (↑T : Multiset TestId) := by
  have hmain : partitionMainFrom g seed T =
      some (sliceJobs (pyShuffle (seedState seed) T)
        (tests_per_job (pyShuffle (seedState seed) T).length) 0) := by
    cases T with
    | nil => exact absurd rfl hT
    | cons x t => rfl
  have hn : 1 ≤ (pyShuffle (seedState seed) T).length := by
    rw [pyShuffle_length]
    cases T with
    | nil => exact absurd rfl hT
    | cons x t => simp
  obtain ⟨s, hs⟩ : ∃ s, tests_per_job (pyShuffle (seedState seed) T).length = s + 1 := by
    have h1 : 1 ≤ tests_per_job (pyShuffle (seedState seed) T).length := by
      unfold tests_per_job
      exact (Nat.le_div_iff_mul_le (by norm_num)).mpr (by omega)
    exact ⟨_, (Nat.succ_pred_eq_of_pos h1).symm⟩
  have hperm : ((((partitionMainFrom g seed T).getD []).map Job.tests).flatten).Perm T := by
    rw [hmain]
    show (((sliceJobs (pyShuffle (seedState seed) T)
      (tests_per_job (pyShuffle (seedState seed) T).length) 0).map Job.tests).flatten).Perm T
    rw [hs]
    unfold sliceJobs
    rw [sliceJobsFuel_flatten _ _ _ _ (le_refl _)]
    exact pyShuffle_perm _ T
  exact ⟨hperm, Multiset.coe_eq_coe.mpr hperm⟩

theorem partition_preserves_multiset_witness :
    ((((partitionMainFrom 0 42 ["a", "b"]).getD []).map Job.tests).flatten).Perm ["a", "b"] ∧
    (↑((((partitionMainFrom 0 42 ["a", "b"]).getD []).map Job.tests).flatten) : Multiset TestId) =
      (↑(["a", "b"] : List TestId) : Multiset TestId) :=
  partition_preserves_multiset 0 42 ["a", "b"] (by decide)

/-- C7: For every shard count and every seed, applying the partitioner to an
empty test list fails with EmptyCorpus (modelled as `none`, the error exit of
lines 135-137); it never silently produces a matrix with zero shards. -/
theorem partition_empty_corpus (g seed J : Nat) :
    partitionMainFrom g seed [] = none ∧ partitionWith J seed [] = none := ⟨rfl, rfl⟩

/-- C3: For every non-empty test list and target shard count `J ≥ 1`, the
partitioner uses a shard size equal to the ceiling of the corpus length over
`J` and walks the permuted sequence in consecutive non-overlapping windows of
that size (their concatenation is the permuted sequence): every shard except
possibly the last holds exactly that many tests, every shard — the last
included — holds at least 1 and at most that many, and the job id of the
shard at position `k` is `k` (0-based, consecutive, no gaps).  The script
instantiates `J = 4` (see `partitionMainFrom_eq_four`). -/
theorem partition_shard_sizes (T : List TestId) (seed J : Nat) (hT : T ≠ []) (hJ : 1 ≤ J) :
    (T.length + (J - 1)) / J = T.length ⌈/⌉ J ∧
    ∀ jobs : List Job, partitionWith J seed T = some jobs →
      jobs ≠ [] ∧
      (jobs.map Job.tests).flatten = pyShuffle (seedState seed) T ∧
      ∀ k, ∀ h : k < jobs.length,
        (jobs.get ⟨k, h⟩).job_id = k ∧
        1 ≤ (jobs.get ⟨k, h⟩).tests.length ∧
        (jobs.get ⟨k, h⟩).tests.length ≤ (T.length + (J - 1)) / J ∧
        (k + 1 < jobs.length → (jobs.get ⟨k, h⟩).tests.length = (T.length + (J - 1)) / J) := by
  constructor
  · rw [Nat.ceilDiv_eq_add_pred_div]
    congr 1
    omega
  · intro jobs hjobs
    have hinv : partitionWith J seed T =
        some (sliceJobs (pyShuffle (seedState seed) T)
          (((pyShuffle (seedState seed) T).length + (J - 1)) / J) 0) := by
      cases T with
      | nil => exact absurd rfl hT
      | cons x t => rfl
    rw [hinv] at hjobs
    obtain rfl : sliceJobs (pyShuffle (seedState seed) T)
        (((pyShuffle (seedState seed) T).length + (J - 1)) / J) 0 = jobs :=
      Option.some.inj hjobs
    have hlenT : (pyShuffle (seedState seed) T).length = T.length := pyShuffle_length seed T
    have hn : 1 ≤ (pyShuffle (seedState seed) T).length := by
      rw [hlenT]
      cases T with
      | nil => exact absurd rfl hT
      | cons x t => simp
    obtain ⟨s, hs⟩ : ∃ s, ((pyShuffle (seedState seed) T).length + (J - 1)) / J = s + 1 := by
      have h1 : 1 ≤ ((pyShuffle (seedState seed) T).length + (J - 1)) / J :=
        (Nat.le_div_iff_mul_le (by omega)).mpr (by omega)
      exact ⟨_, (Nat.succ_pred_eq_of_pos h1).symm⟩
    have hsT : (T.length + (J - 1)) / J = s + 1 := by rw [← hlenT]; exact hs
    rw [hs]
    unfold sliceJobs
    have hne : pyShuffle (seedState seed) T ≠ [] := by
      intro hnil
      rw [hnil] at hn
      simp at hn
    refine ⟨sliceJobsFuel_ne_nil _ _ s 0 (le_refl _) hne, ?_, ?_⟩
    · exact sliceJobsFuel_flatten _ _ s 0 (le_refl _)
    · intro k h
      have hid := sliceJobsFuel_job_id (pyShuffle (seedState seed) T).length
        (pyShuffle (seedState seed) T) s 0 k h
      have hsz := sliceJobsFuel_sizes (pyShuffle (seedState seed) T).length
        (pyShuffle (seedState seed) T) s 0 k (le_refl _) h
      rw [hsT]
      exact ⟨by rw [hid]; omega, hsz.1, hsz.2.1, hsz.2.2⟩

theorem partition_shard_sizes_witness :
    ((["a", "b", "c", "d", "e"] : List TestId).length + (4 - 1)) / 4 =
      (["a", "b", "c", "d", "e"] : List TestId).length ⌈/⌉ 4 ∧
    ∀ jobs : List Job, partitionWith 4 0 ["a", "b", "c", "d", "e"] = some jobs →
      jobs ≠ [] ∧
      (jobs.map Job.tests).flatten = pyShuffle (seedState 0) ["a", "b", "c", "d", "e"] ∧
      ∀ k, ∀ h : k < jobs.length,
        (jobs.get ⟨k, h⟩).job_id = k ∧
        1 ≤ (jobs.get ⟨k, h⟩).tests.length ∧
        (jobs.get ⟨k, h⟩).tests.length ≤
          ((["a", "b", "c", "d", "e"] : List TestId).length + (4 - 1)) / 4 ∧
        (k + 1 < jobs.length → (jobs.get ⟨k, h⟩).tests.length =
          ((["a", "b", "c", "d", "e"] : List TestId).length + (4 - 1)) / 4) :=
  partition_shard_sizes ["a", "b", "c", "d", "e"] 0 4 (by decide) (by decide)

/-- C4: In the resolver, an entry commit matches the query commit exactly
when the two strings are equal character for character, or the entry commit
is a prefix of the query commit, or the query commit is a prefix of the entry
commit; in particular an empty-string commit on either side matches any
commit. -/
theorem commit_match_spec (ec c : String) :
    (commitMatches ec c = true ↔ (ec = c ∨ ec.data <+: c.data ∨ c.data <+: ec.data)) ∧
    commitMatches "" c = true ∧ commitMatches ec "" = true := by
  refine ⟨?_, commitMatches_empty_left c, commitMatches_empty_right ec⟩
  unfold commitMatches pyStartswith
  simp only [Bool.or_eq_true, beq_iff_eq, List.isPrefixOf_iff_prefix]
  tauto

/-- C5: Given a commit-matching entry, the query job id (supplied as text)
matches the stored job id exactly when the string forms of the two are equal,
or the query text parses as an integer and the stored id is that integer; a
match on either comparison is accepted, so a stored numeric id 2 and a stored
text id "2" both match the query "2". -/
theorem job_id_match_spec (ejid : Option JobIdVal) (q : String) :
    (jobIdMatches ejid q (pyInt? q) = true ↔
      (strOfJobId ejid = q ∨ ∃ k : Int, pyInt? q = some k ∧ ejid = some (JobIdVal.vint k))) ∧
    jobIdMatches (some (JobIdVal.vint 2)) "2" (pyInt? "2") = true ∧
    jobIdMatches (some (JobIdVal.vstr "2")) "2" (pyInt? "2") = true := by
  refine ⟨?_, by decide, by decide⟩
  unfold jobIdMatches
  simp only [Bool.or_eq_true, beq_iff_eq]
  constructor
  · rintro (h | h)
    · exact Or.inl h
    · right
      cases hq : pyInt? q with
      | none => rw [hq] at h; simp at h
      | some k =>
        rw [hq] at h
        cases ejid with
        | none => simp [jobIdEqInt] at h
        | some v =>
          cases v with
          | vint i =>
            have hik : i = k := by simpa [jobIdEqInt] using h
            exact ⟨k, rfl, by rw [hik]⟩
          | vstr s => simp [jobIdEqInt] at h
  · rintro (h | ⟨k, hk, rfl⟩)
    · exact Or.inl h
    · right
      rw [hk]
      simp [jobIdEqInt]

/-- C6: For every matrix, query commit and query job id, the resolver scans
`include` in document order and returns the `tests` list of the first entry
satisfying both the commit match and the job-id match, returned unchanged
(the stored list itself, order preserved, no deduplication; a missing `tests`
key defaults to the empty list); when no entry satisfies both, the result is
the value `none` (NotFound) rather than an exception. -/
theorem resolver_first_match (entries : List MEntry) (commit job_id : String) :
    findGo commit job_id (pyInt? job_id) entries =
      (entries.find? (entryMatches commit job_id (pyInt? job_id))).map
        (fun e => (entryFuzzerJob e).tests.getD []) := by
  induction entries with
  | nil => rfl
  | cons e rest ih =>
    cases e with
    | nonDict =>
      simp only [findGo, List.find?_cons, entryMatches]
      exact ih
    | dict c fj jk tk =>
      by_cases hc : commitMatches (c.getD "") commit = true
      · by_cases hj : jobIdMatches (Option.getD fj ⟨none, none⟩).job_id job_id (pyInt? job_id) = true
        · simp [findGo, List.find?_cons, entryMatches, entryCommitStr, entryFuzzerJob, hc, hj]
        · simp [findGo, List.find?_cons, entryMatches, entryCommitStr, entryFuzzerJob, hc, hj, ih]
      · simp [findGo, List.find?_cons, entryMatches, entryCommitStr, entryFuzzerJob, hc, ih]

/-- C8 counterexample: a dict entry missing the `commit` key is not skipped.
Its commit defaults to the empty string, which prefix-matches any query
commit, so the entry is returned as a match together with its stored tests —
refuting the claim that entries missing `commit` or `fuzzer_job` are skipped
and never returned as matches. -/
theorem resolver_missing_commit_counterexample :
    findGo "abc123" "2" (pyInt? "2")
      [MEntry.dict none (some ⟨some (JobIdVal.vint 2), some ["a"]⟩) none none] = some ["a"] := by
  decide

/-- C8 (amended): entries that are not dicts are skipped by the scan, not
treated as errors, and resolution continues over the remaining entries;
entries missing the `commit` or `fuzzer_job` fields are not errors either,
but instead of being skipped they are given the defaults (empty string,
empty record) and behave exactly like entries carrying those values — so
they can still match and be returned. -/
theorem resolver_skips_non_dict (rest : List MEntry) (c q : String) (qi : Option Int) :
    findGo c q qi (MEntry.nonDict :: rest) = findGo c q qi rest ∧
    findGo c q qi (MEntry.dict none none none none :: rest) =
      findGo c q qi (MEntry.dict (some "") (some ⟨none, none⟩) none none :: rest) := ⟨rfl, rfl⟩

/-- C9 counterexample: the partitioner on the corpus ["a"] emits exactly one
shard, with job id 0 and tests ["a"]; re-parsing its serialized matrix and
querying the resolver with that job id (and a commit scoped out by the empty
string) returns `none` instead of recovering ["a"] — the partitioner stores
`job_id` and `tests` at entry top level while the resolver reads `commit`
and `fuzzer_job`. -/
theorem roundtrip_counterexample :
    partitionMainFrom 0 42 ["a"] = some [⟨0, ["a"]⟩] ∧
    findGo "" "0" (pyInt? "0")
      (((partitionMainFrom 0 42 ["a"]).getD []).map jobToMatrixEntry) = none := by
  decide

/-- C9 (amended): the round trip fails.  On a re-parsed partitioner matrix
the resolver never recovers the tests of any shard: for every job list, query
commit and query job id, resolution returns `none` (NotFound) or `some []`
(the defaulted empty tests of the first entry, reached when the query text is
"None"). -/
theorem roundtrip_amended (jobs : List Job) (c q : String) :
    findGo c q (pyInt? q) (jobs.map jobToMatrixEntry) = none ∨
    findGo c q (pyInt? q) (jobs.map jobToMatrixEntry) = some [] := by
  induction jobs with
  | nil => exact Or.inl rfl
  | cons j rest ih =>
    have h1 : findGo c q (pyInt? q) (List.map jobToMatrixEntry (j :: rest)) =
        if jobIdMatches none q (pyInt? q) = true then some []
        else findGo c q (pyInt? q) (List.map jobToMatrixEntry rest) := by
      simp only [List.map_cons, jobToMatrixEntry, findGo, Option.getD_none]
      rw [if_pos (commitMatches_empty_left c)]
    rw [h1]
    by_cases hj : jobIdMatches none q (pyInt? q) = true
    · rw [if_pos hj]
      exact Or.inr rfl
    · rw [if_neg hj]
      exact ih

/-- C10: If the first entry matching both commit and job id has a
`fuzzer_job` record with no `tests` field, the resolver returns the empty
list rather than NotFound; an entry storing an explicitly empty `tests` list
yields the identical result, so an empty result does not distinguish the
absence of stored tests from a present-but-empty tests list. -/
theorem resolver_missing_tests (c q : String) (cm : Option String) (jid : Option JobIdVal)
    (jk : Option JobIdVal) (tk : Option (List TestId)) (rest : List MEntry)
    (hc : commitMatches (cm.getD "") c = true)
    (hj : jobIdMatches jid q (pyInt? q) = true) :
    findGo c q (pyInt? q) (MEntry.dict cm (some ⟨jid, none⟩) jk tk :: rest) = some [] ∧
    findGo c q (pyInt? q) (MEntry.dict cm (some ⟨jid, some []⟩) jk tk :: rest) = some [] := by
  constructor <;>
    · simp only [findGo, Option.getD_some]
      rw [if_pos hc]
      rw [if_pos hj]
      try rfl

theorem resolver_missing_tests_witness :
    findGo "abc" "2" (pyInt? "2")
      [MEntry.dict (some "abc") (some ⟨some (JobIdVal.vint 2), none⟩) none none] = some [] ∧
    findGo "abc" "2" (pyInt? "2")
      [MEntry.dict (some "abc") (some ⟨some (JobIdVal.vint 2), some []⟩) none none] = some [] :=
  resolver_missing_tests "abc" "2" (some "abc") (some (JobIdVal.vint 2)) none none []
    (by decide) (by decide)
